import Mathlib

/-!
Verification of the PyMuPDF4llm wrapper (`src/pdf_parser/parser.py`).

The wrapper's own logic — page-index filtering, chunk concatenation with
`# Page <n>` headers, file writing, and the CLI success/error flow — is
embedded faithfully below.  The external extraction engine
(`pymupdf4llm.to_markdown`) is not part of the repository's sources; its
observable contract (per-page text, 1-based page metadata in chunks) is
modelled from the specification where a claim depends on it.

A document is abstracted as the list of its pages' extracted texts; the
page count is the list's length.  Python strings are Lean `String`s,
Python ints used as page indices are Lean `Int` (the CLI accepts negative
values), and the filesystem write is reified as a `WriteEffect` record.
-/

namespace PdfParser

/-- One per-page record of chunked output: the `metadata["page"]` entry
(1-based page number, absent when the metadata mapping lacks the key) and
the `text` entry. -/
structure PageDict where
  page : Option Nat
  text : String
deriving Repr, DecidableEq

/-- `md_output` of the wrapper: either a single Markdown string or a list
of per-page records (`page_chunks` mode). -/
inductive MdOutput where
  | str : String → MdOutput
  | chunks : List PageDict → MdOutput
deriving Repr, DecidableEq

/-- Errors raised on the extraction path: `fitz.open` failing, or the
`ValueError("No valid pages specified. ...")` of the wrapper, carrying the
document's page count. -/
inductive ParseError where
  | loadFailed : String → ParseError
  | noValidPages : Nat → ParseError
deriving Repr, DecidableEq

/-- `pathlib.Path.write_text` raises `TypeError` when its argument is not
a string (e.g. a list of chunk records). -/
inductive SaveError where
  | typeError : SaveError
deriving Repr, DecidableEq

/-- The Python test `0 <= p < total_pages` of the page filter. -/
def pageValid (total : Nat) (p : Int) : Bool :=
  0 ≤ p && p < (total : Int)

/-- The page-selection logic of `parse_pdf_to_markdown` (parser.py:24-29):
`if pages:` is Python truthiness, so a non-empty list is bounds-filtered
(raising when nothing survives) while `None` or `[]` selects every page. -/
def selectPages (pages : Option (List Int)) (total : Nat) :
    Except ParseError (List Int) :=
  match pages with
  | some ps =>
    if ps.isEmpty then
      Except.ok ((List.range total).map Int.ofNat)
    else
      let filtered := ps.filter (pageValid total)
      if filtered.isEmpty then
        Except.error (ParseError.noValidPages total)
      else
        Except.ok filtered
  | none => Except.ok ((List.range total).map Int.ofNat)

/-- Modelled from the spec: the texts the extraction engine draws from the
selected pages, in selection order (§8: output contains exactly the
requested pages' marker strings). -/
def extractedTexts (doc : List String) (pages : List Int) : List String :=
  pages.filterMap (fun p => doc.get? p.toNat)

/-- Modelled from the spec: `pymupdf4llm.to_markdown`, which is not part of
this repository.  Unchunked, it returns one string built from the selected
pages' texts; chunked, it returns one record per selected page whose
`metadata["page"]` is the 1-based page number (§6: records carry a 1-based
`page`; §4.4). -/
def to_markdown (doc : List String) (pages : List Int) (page_chunks : Bool) :
    MdOutput :=
  if page_chunks then
    MdOutput.chunks (pages.filterMap (fun p =>
      (doc.get? p.toNat).map (fun t => ⟨some (p.toNat + 1), t⟩)))
  else
    MdOutput.str (String.join (extractedTexts doc pages))

/-- `parse_pdf_to_markdown` (parser.py:9-41): open the document, select
pages, delegate to the engine. -/
def parse_pdf_to_markdown (doc : List String) (pages : Option (List Int))
    (page_chunks : Bool) : Except ParseError MdOutput :=
  match selectPages pages doc.length with
  | Except.error e => Except.error e
  | Except.ok sel => Except.ok (to_markdown doc sel page_chunks)

/-- The page label interpolated into the chunk header: `str(n)` for a
present page number, the default `"unknown"` otherwise
(parser.py:52: `page_dict.get("metadata", {}).get("page", "unknown")`). -/
def pageLabel : Option Nat → String
  | some n => Nat.repr n
  | none => "unknown"

/-- One loop iteration's appended text (parser.py:53):
`f"# Page {page_number}\n\n{page_dict.get('text', '')}\n\n"`. -/
def chunkSegment (d : PageDict) : String :=
  "# Page " ++ pageLabel d.page ++ "\n\n" ++ d.text ++ "\n\n"

/-- The accumulation loop of `save_markdown` (parser.py:51-54):
`full_md = ""` then `full_md += ...` per record. -/
def concatChunks (chunks : List PageDict) : String :=
  chunks.foldl (fun acc d => acc ++ chunkSegment d) ""

/-- The observable filesystem effect of a successful `save_markdown`. -/
structure WriteEffect where
  parentDirsCreated : Bool
  encoding : String
  content : String
deriving Repr, DecidableEq

/-- `save_markdown` (parser.py:43-57): create parent directories, convert
a chunk list to one string only when `page_chunks` is set AND the output
is a list, then `write_text(..., encoding="utf-8")` — which raises
`TypeError` if handed a list. -/
def save_markdown (md : MdOutput) (page_chunks : Bool) :
    Except SaveError WriteEffect :=
  let md' : MdOutput :=
    if page_chunks then
      match md with
      | MdOutput.chunks l => MdOutput.str (concatChunks l)
      | _ => md
    else md
  match md' with
  | MdOutput.str s => Except.ok ⟨true, "utf-8", s⟩
  | MdOutput.chunks _ => Except.error SaveError.typeError

/-- The message of the wrapper's `ValueError` / a load failure, as caught
by `main`'s `except Exception as e`. -/
def errMessage : ParseError → String
  | ParseError.loadFailed m => m
  | ParseError.noValidPages total =>
      "No valid pages specified. Document has " ++ Nat.repr total ++ " pages."

def saveErrMessage : SaveError → String
  | SaveError.typeError => "write_text() argument must be str"

/-- The observable outcome of one `main` run: process exit code, lines
printed to stdout and stderr, and the file write performed (if any). -/
structure CliResult where
  exitCode : Nat
  stdoutMsgs : List String
  stderrMsgs : List String
  written : Option WriteEffect
deriving Repr, DecidableEq

/-- The extraction part of `main`'s `try` block: document loading followed
by `parse_pdf_to_markdown`. -/
def parseFlow (load : Except String (List String))
    (pages : Option (List Int)) (page_chunks : Bool) :
    Except ParseError MdOutput :=
  match load with
  | Except.error m => Except.error (ParseError.loadFailed m)
  | Except.ok doc => parse_pdf_to_markdown doc pages page_chunks

/-- `main`'s try/except flow (parser.py:99-114): on success, save then
print two progress lines and exit 0 (implicitly); on any exception, print
`An error occurred: {e}` (plain `print`, i.e. stdout) and `sys.exit(1)`.
Nothing is ever printed to stderr and no file is written on failure. -/
def mainRun (load : Except String (List String))
    (pages : Option (List Int)) (page_chunks : Bool)
    (input output : String) : CliResult :=
  match parseFlow load pages page_chunks with
  | Except.error e =>
      ⟨1, ["An error occurred: " ++ errMessage e], [], none⟩
  | Except.ok md =>
      match save_markdown md page_chunks with
      | Except.error e =>
          ⟨1, ["An error occurred: " ++ saveErrMessage e], [], none⟩
      | Except.ok eff =>
          ⟨0, ["Successfully processed " ++ "'" ++ input ++ "'" ++ ".",
               "Output saved to " ++ "'" ++ output ++ "'" ++ "."],
           [], some eff⟩

/-- Right-fold string concatenation, the shape `save_markdown`'s loop is
proved equal to. -/
def joinStrings : List String → String
  | [] => ""
  | s :: l => s ++ joinStrings l

end PdfParser

namespace PdfParser

/-! ### Line structure of the written text

`splitLines` decomposes a character list at newline characters, so that
the `# Page` header layout of the concatenated chunk text can be stated
line by line. -/

def splitLines : List Char → List (List Char)
  | [] => [[]]
  | c :: cs =>
    if c = '\n' then [] :: splitLines cs
    else
      match splitLines cs with
      | [] => [[c]]
      | l :: ls => (c :: l) :: ls

theorem splitLines_ne_nil (cs : List Char) : splitLines cs ≠ [] := by
  induction cs with
  | nil => simp [splitLines]
  | cons c cs ih =>
    simp only [splitLines]
    split
    · simp
    · split
      · simp
      · simp

theorem splitLines_cons_newline (cs : List Char) :
    splitLines ('\n' :: cs) = [] :: splitLines cs := by
  simp [splitLines]

theorem splitLines_cons_of_ne {c : Char} (h : ¬ c = '\n') (cs : List Char) :
    splitLines (c :: cs) = (c :: (splitLines cs).headD []) :: (splitLines cs).tail := by
  rcases hs : splitLines cs with _ | ⟨l, ls⟩
  · exact absurd hs (splitLines_ne_nil cs)
  · simp [splitLines, h, hs]

theorem splitLines_append_single_newline (xs : List Char) :
    splitLines (xs ++ ['\n']) = splitLines xs ++ [[]] := by
  induction xs with
  | nil => simp [splitLines]
  | cons c cs ih =>
    by_cases hc : c = '\n'
    · subst hc
      rw [List.cons_append, splitLines_cons_newline, splitLines_cons_newline, ih,
        List.cons_append]
    · rw [List.cons_append, splitLines_cons_of_ne hc, splitLines_cons_of_ne hc, ih]
      rcases h : splitLines cs with _ | ⟨l, ls⟩
      · exact absurd h (splitLines_ne_nil cs)
      · simp

theorem splitLines_two_le (xs : List Char) :
    2 ≤ (splitLines (xs ++ ['\n'])).length := by
  rw [splitLines_append_single_newline]
  have := splitLines_ne_nil xs
  rcases h : splitLines xs with _ | ⟨l, ls⟩
  · exact absurd h this
  · simp

theorem splitLines_append_newline (xs ys : List Char) :
    splitLines ((xs ++ ['\n']) ++ ys) =
      (splitLines (xs ++ ['\n'])).dropLast ++ splitLines ys := by
  induction xs with
  | nil =>
    rw [List.nil_append, List.singleton_append, splitLines_cons_newline]
    simp [splitLines]
  | cons c cs ih =>
    by_cases hc : c = '\n'
    · subst hc
      rw [List.cons_append, List.cons_append, splitLines_cons_newline,
        splitLines_cons_newline, ih]
      have h1 := splitLines_ne_nil (cs ++ ['\n'])
      rcases h : splitLines (cs ++ ['\n']) with _ | ⟨l, ls⟩
      · exact absurd h h1
      · simp
    · rw [List.cons_append, List.cons_append, splitLines_cons_of_ne hc,
        splitLines_cons_of_ne hc, ih]
      have h2 := splitLines_two_le cs
      rcases h : splitLines (cs ++ ['\n']) with _ | ⟨l, ls⟩
      · exact absurd h (splitLines_ne_nil _)
      · rcases ls with _ | ⟨m, ms⟩
        · rw [h] at h2; simp at h2
        · simp

theorem splitLines_no_newline_append (xs ys : List Char)
    (h : ∀ c ∈ xs, ¬ c = '\n') :
    splitLines (xs ++ '\n' :: ys) = xs :: splitLines ys := by
  induction xs with
  | nil => simpa using splitLines_cons_newline ys
  | cons c cs ih =>
    have hc : ¬ c = '\n' := h c (List.mem_cons_self c cs)
    rw [List.cons_append, splitLines_cons_of_ne hc,
      ih (fun d hd => h d (List.mem_cons_of_mem c hd))]
    simp

theorem digitChar_lt_ne_newline : ∀ m : Nat, m < 10 → ¬ Nat.digitChar m = '\n' := by
  decide

theorem toDigitsCore_ne_newline :
    ∀ (fuel n : Nat) (ds : List Char), (∀ c ∈ ds, ¬ c = '\n') →
      ∀ c ∈ Nat.toDigitsCore 10 fuel n ds, ¬ c = '\n' := by
  intro fuel
  induction fuel with
  | zero => intro n ds hds; simpa [Nat.toDigitsCore] using hds
  | succ fuel ih =>
    intro n ds hds
    simp only [Nat.toDigitsCore]
    split
    · intro c hc
      rcases List.mem_cons.mp hc with rfl | hc
      · exact digitChar_lt_ne_newline _ (Nat.mod_lt n (by decide))
      · exact hds c hc
    · refine ih _ _ ?_
      intro c hc
      rcases List.mem_cons.mp hc with rfl | hc
      · exact digitChar_lt_ne_newline _ (Nat.mod_lt n (by decide))
      · exact hds c hc

theorem repr_ne_newline (n : Nat) : ∀ c ∈ (Nat.repr n).toList, ¬ c = '\n' := by
  have : (Nat.repr n).toList = Nat.toDigitsCore 10 (n + 1) n [] := by
    simp [Nat.repr, Nat.toDigits, List.asString, String.toList]
  rw [this]
  exact toDigitsCore_ne_newline (n + 1) n [] (by simp)

/-- The line-level shape contributed by one chunk record: its header line,
a blank line, the body's lines, and a blank line after the body. -/
def chunkLines (d : PageDict) : List (List Char) :=
  ("# Page " ++ pageLabel d.page).toList :: [] :: (splitLines d.text.toList ++ [[]])

theorem pageLabel_ne_newline (p : Option Nat) :
    ∀ c ∈ (pageLabel p).toList, ¬ c = '\n' := by
  cases p with
  | none => decide
  | some n => exact repr_ne_newline n

theorem header_ne_newline (p : Option Nat) :
    ∀ c ∈ ("# Page " ++ pageLabel p).toList, ¬ c = '\n' := by
  intro c hc
  rw [show ("# Page " ++ pageLabel p).toList
      = "# Page ".toList ++ (pageLabel p).toList by simp [String.toList]] at hc
  rcases List.mem_append.mp hc with h | h
  · have hall : ∀ c ∈ "# Page ".toList, ¬ c = '\n' := by decide
    exact hall c h
  · exact pageLabel_ne_newline p c h

theorem chunkSegment_toList_append (d : PageDict) (rest : List Char) :
    (chunkSegment d).toList ++ rest =
      ("# Page " ++ pageLabel d.page).toList
        ++ '\n' :: '\n' :: ((d.text.toList ++ ['\n']) ++ ('\n' :: rest)) := by
  simp [chunkSegment, String.toList]

theorem splitLines_chunkSegment_append (d : PageDict) (rest : List Char) :
    splitLines ((chunkSegment d).toList ++ rest) =
      chunkLines d ++ splitLines rest := by
  rw [chunkSegment_toList_append]
  rw [splitLines_no_newline_append _ _ (header_ne_newline d.page)]
  rw [splitLines_cons_newline]
  rw [splitLines_append_newline]
  rw [splitLines_append_single_newline, splitLines_cons_newline]
  simp [chunkLines]

theorem concatChunks_foldl (l : List PageDict) :
    ∀ acc : String,
      l.foldl (fun a d => a ++ chunkSegment d) acc
        = acc ++ joinStrings (l.map chunkSegment) := by
  induction l with
  | nil => intro acc; simp [joinStrings]
  | cons d l ih =>
    intro acc
    simp only [List.foldl_cons, List.map_cons, joinStrings, ih,
      String.append_assoc]

theorem concatChunks_eq_joinStrings (l : List PageDict) :
    concatChunks l = joinStrings (l.map chunkSegment) := by
  have := concatChunks_foldl l ""
  simpa [concatChunks] using this

theorem splitLines_concatChunks (l : List PageDict) :
    splitLines (concatChunks l).toList = l.flatMap chunkLines ++ [[]] := by
  rw [concatChunks_eq_joinStrings]
  induction l with
  | nil => simp [joinStrings, splitLines, String.toList]
  | cons d l ih =>
    rw [List.map_cons, joinStrings,
      show (chunkSegment d ++ joinStrings (l.map chunkSegment)).toList
        = (chunkSegment d).toList ++ (joinStrings (l.map chunkSegment)).toList
        by simp [String.toList],
      splitLines_chunkSegment_append, ih]
    simp

end PdfParser

namespace PdfParser

theorem pageValid_iff (total : Nat) (p : Int) :
    pageValid total p = true ↔ (0 ≤ p ∧ p < (total : Int)) := by
  simp [pageValid]

/-- C1: for a non-empty `pages` filter, every out-of-bounds index
(negative or `≥` the page count) is silently dropped — the selection keeps
exactly the in-bounds requested indices — and when no index survives the
bounds check the call fails with the no-valid-pages error. -/
theorem claim_C1 (doc : List String) (ps : List Int) (pc : Bool)
    (h : ps ≠ []) :
    ((∀ p ∈ ps, pageValid doc.length p = false) →
      parse_pdf_to_markdown doc (some ps) pc
        = Except.error (ParseError.noValidPages doc.length)) ∧
    ((∃ p ∈ ps, pageValid doc.length p = true) →
      ∃ kept, parse_pdf_to_markdown doc (some ps) pc
          = Except.ok (to_markdown doc kept pc) ∧
        ∀ p : Int, p ∈ kept ↔ (p ∈ ps ∧ 0 ≤ p ∧ p < (doc.length : Int))) := by
  have hne : ps.isEmpty = false := by simpa using h
  constructor
  · intro hall
    have hfil : ps.filter (pageValid doc.length) = [] := by
      rw [List.filter_eq_nil_iff]
      intro p hp
      simp [hall p hp]
    simp [parse_pdf_to_markdown, selectPages, hne, hfil]
  · rintro ⟨p, hp, hv⟩
    have hfil : ps.filter (pageValid doc.length) ≠ [] := by
      intro hcon
      have := List.filter_eq_nil_iff.mp hcon p hp
      simp [hv] at this
    refine ⟨ps.filter (pageValid doc.length), ?_, ?_⟩
    · simp [parse_pdf_to_markdown, selectPages, hne,
        List.isEmpty_eq_false.mpr hfil]
    · intro q
      rw [List.mem_filter, pageValid_iff]

/-- C9: `parse_pdf_to_markdown` raises the empty-filter error iff `pages`
is a non-empty list all of whose indices fall outside `[0, total_pages)`;
`none` or an already-empty list instead selects every page. -/
theorem claim_C9 (doc : List String) (pages : Option (List Int)) (pc : Bool) :
    ((∃ t, parse_pdf_to_markdown doc pages pc
        = Except.error (ParseError.noValidPages t)) ↔
      (∃ ps, pages = some ps ∧ ps ≠ [] ∧
        ∀ p ∈ ps, ¬ (0 ≤ p ∧ p < (doc.length : Int)))) ∧
    ((pages = none ∨ pages = some []) →
      parse_pdf_to_markdown doc pages pc
        = Except.ok (to_markdown doc
            ((List.range doc.length).map Int.ofNat) pc)) := by
  constructor
  · constructor
    · intro ⟨t, ht⟩
      match pages with
      | none => simp [parse_pdf_to_markdown, selectPages] at ht
      | some ps =>
        refine ⟨ps, rfl, ?_, ?_⟩
        · intro hcon
          subst hcon
          simp [parse_pdf_to_markdown, selectPages] at ht
        · intro p hp
          rw [← pageValid_iff]
          by_cases hne : ps.isEmpty
          · simp [parse_pdf_to_markdown, selectPages, hne] at ht
          · simp only [parse_pdf_to_markdown, selectPages, hne] at ht
            by_cases hfil : (ps.filter (pageValid doc.length)).isEmpty
            · rw [List.isEmpty_iff] at hfil
              have := List.filter_eq_nil_iff.mp hfil p hp
              simpa using this
            · simp [hfil] at ht
    · rintro ⟨ps, rfl, hne, hall⟩
      have hne' : ps.isEmpty = false := by simpa using hne
      have hfil : ps.filter (pageValid doc.length) = [] := by
        rw [List.filter_eq_nil_iff]
        intro p hp
        have := hall p hp
        rw [← pageValid_iff] at this
        simpa using this
      exact ⟨doc.length, by simp [parse_pdf_to_markdown, selectPages, hne', hfil]⟩
  · rintro (rfl | rfl) <;> simp [parse_pdf_to_markdown, selectPages]

end PdfParser

namespace PdfParser

theorem claim_C1_witness :
    ((∀ p ∈ ([5, -1] : List Int), pageValid (["a", "b", "c"] : List String).length p = false) →
      parse_pdf_to_markdown ["a", "b", "c"] (some [5, -1]) false
        = Except.error (ParseError.noValidPages (["a", "b", "c"] : List String).length)) ∧
    ((∃ p ∈ ([5, -1] : List Int), pageValid (["a", "b", "c"] : List String).length p = true) →
      ∃ kept, parse_pdf_to_markdown ["a", "b", "c"] (some [5, -1]) false
          = Except.ok (to_markdown ["a", "b", "c"] kept false) ∧
        ∀ p : Int, p ∈ kept ↔ (p ∈ ([5, -1] : List Int) ∧ 0 ≤ p ∧
          p < ((["a", "b", "c"] : List String).length : Int))) :=
  claim_C1 ["a", "b", "c"] [5, -1] false (by decide)

theorem claim_C9_witness :
    parse_pdf_to_markdown ["a"] (some []) false
      = Except.ok (to_markdown ["a"]
          ((List.range (["a"] : List String).length).map Int.ofNat) false) :=
  (claim_C9 ["a"] (some []) false).2 (Or.inr rfl)

/-- C2: saving chunked output writes, for each record in turn, the header
`# Page <n>` (with `n` the record's metadata page number) followed by the
record's body; a record without a page number gets `# Page unknown`. -/
theorem claim_C2 (l : List PageDict) :
    ∃ eff, save_markdown (MdOutput.chunks l) true = Except.ok eff ∧
      eff.content = joinStrings (l.map (fun d =>
        "# Page " ++ (match d.page with
          | some n => Nat.repr n
          | none => "unknown") ++ "\n\n" ++ d.text ++ "\n\n")) := by
  refine ⟨⟨true, "utf-8", concatChunks l⟩, rfl, ?_⟩
  rw [concatChunks_eq_joinStrings]
  rfl

/-- C3: line structure of the saved chunked output — one `# Page` header
line per record, in record order, each followed by a blank line, the
record's body lines, and exactly one blank line closing the body
(`chunkLines` is header line / blank / body lines / one blank). -/
theorem claim_C3 (l : List PageDict) :
    ∃ eff, save_markdown (MdOutput.chunks l) true = Except.ok eff ∧
      splitLines eff.content.toList = l.flatMap chunkLines ++ [[]] :=
  ⟨⟨true, "utf-8", concatChunks l⟩, rfl, splitLines_concatChunks l⟩

/-- C10: a plain-string output is written verbatim with UTF-8 encoding
whatever the `page_chunks` flag; chunk concatenation happens only for a
list with the flag set — with the flag clear, a list makes the write
raise `TypeError`. -/
theorem claim_C10 (s : String) (pc : Bool) :
    save_markdown (MdOutput.str s) pc = Except.ok ⟨true, "utf-8", s⟩ ∧
    ∀ l : List PageDict, save_markdown (MdOutput.chunks l) pc
        = if pc then Except.ok ⟨true, "utf-8", concatChunks l⟩
          else Except.error SaveError.typeError := by
  cases pc <;> exact ⟨rfl, fun l => rfl⟩

/-- C4 counterexample: a chunked output with the default
`page_chunks=False` is NOT concatenated and nothing is written — the
`write_text` call raises `TypeError` — refuting the claim that every
chunked output is concatenated per the header rule before writing. -/
theorem claim_C4_counterexample :
    save_markdown (MdOutput.chunks [⟨some 1, "Page 1 content"⟩]) false
      = Except.error SaveError.typeError := rfl

/-- C4 amended: `save_markdown` creates parent directories and writes the
text UTF-8 encoded for every string output; a chunked (list) output is
concatenated per the §4.4 header rule before writing only when the
`page_chunks` flag is true — when the flag is false the list reaches the
write unconverted and the write fails. -/
theorem claim_C4_amended (md : MdOutput) (pc : Bool) :
    (∀ s, md = MdOutput.str s →
      save_markdown md pc = Except.ok ⟨true, "utf-8", s⟩) ∧
    (∀ l, md = MdOutput.chunks l →
      save_markdown md pc
        = if pc then Except.ok ⟨true, "utf-8", concatChunks l⟩
          else Except.error SaveError.typeError) := by
  constructor
  · rintro s rfl
    cases pc <;> rfl
  · rintro l rfl
    cases pc <;> rfl

theorem claim_C4_amended_witness :
    save_markdown (MdOutput.chunks [⟨some 2, "B"⟩]) true
      = if true then Except.ok ⟨true, "utf-8", concatChunks [⟨some 2, "B"⟩]⟩
        else Except.error SaveError.typeError :=
  (claim_C4_amended (MdOutput.chunks [⟨some 2, "B"⟩]) true).2 [⟨some 2, "B"⟩] rfl

end PdfParser

namespace PdfParser

/-- C5: the numbering asymmetry — a page requested by 0-based index `p`
(validated against the page count) comes back as a chunk whose metadata
page number is the 1-based `p + 1`, and the saved header prints that
`p + 1`; neither side is normalized to the other. -/
theorem claim_C5 (doc : List String) (p : Nat) (h : p < doc.length) :
    parse_pdf_to_markdown doc (some [(p : Int)]) true
        = Except.ok (MdOutput.chunks [⟨some (p + 1), doc.getD p ""⟩]) ∧
    ∃ eff, save_markdown (MdOutput.chunks [⟨some (p + 1), doc.getD p ""⟩]) true
        = Except.ok eff ∧
      eff.content
        = "# Page " ++ Nat.repr (p + 1) ++ "\n\n" ++ doc.getD p "" ++ "\n\n" := by
  constructor
  · have hv : pageValid doc.length (p : Int) = true := by
      simp [pageValid]
      exact_mod_cast h
    have hsome : doc[p]? = some doc[p] := List.getElem?_eq_getElem h
    simp [parse_pdf_to_markdown, selectPages, to_markdown, hv,
      Int.toNat_natCast, hsome, List.getD_eq_getElem?_getD]
  · exact ⟨⟨true, "utf-8", concatChunks [⟨some (p + 1), doc.getD p ""⟩]⟩, rfl, rfl⟩

end PdfParser

namespace PdfParser

theorem claim_C5_witness :
    parse_pdf_to_markdown ["a", "b"] (some [((1 : Nat) : Int)]) true
        = Except.ok (MdOutput.chunks [⟨some (1 + 1), (["a", "b"] : List String).getD 1 ""⟩]) ∧
    ∃ eff, save_markdown
        (MdOutput.chunks [⟨some (1 + 1), (["a", "b"] : List String).getD 1 ""⟩]) true
          = Except.ok eff ∧
      eff.content = "# Page " ++ Nat.repr (1 + 1) ++ "\n\n"
          ++ (["a", "b"] : List String).getD 1 "" ++ "\n\n" :=
  claim_C5 ["a", "b"] 1 (by decide)

/-- C6: when the extraction part of `main`'s try block fails, the flow
takes the except branch — no file is written (`save_markdown` is never
reached) and the process exits with code 1. -/
theorem claim_C6 (load : Except String (List String))
    (pages : Option (List Int)) (pc : Bool) (i o : String) (e : ParseError)
    (h : parseFlow load pages pc = Except.error e) :
    (mainRun load pages pc i o).written = none ∧
    (mainRun load pages pc i o).exitCode = 1 := by
  simp [mainRun, h]

theorem claim_C6_witness :
    (mainRun (Except.error "cannot open file") none false "in.pdf" "out.md").written
        = none ∧
    (mainRun (Except.error "cannot open file") none false "in.pdf" "out.md").exitCode
        = 1 :=
  claim_C6 (Except.error "cannot open file") none false "in.pdf" "out.md"
    (ParseError.loadFailed "cannot open file") rfl

/-- C7 counterexample: a failing run exits with code 1 but prints the
error message to standard output — standard error stays empty — refuting
the claim that the message goes to standard error. -/
theorem claim_C7_counterexample :
    (mainRun (Except.error "boom") none false "in.pdf" "out.md").exitCode = 1 ∧
    (mainRun (Except.error "boom") none false "in.pdf" "out.md").stderrMsgs = [] ∧
    (mainRun (Except.error "boom") none false "in.pdf" "out.md").stdoutMsgs
        = ["An error occurred: boom"] :=
  ⟨rfl, rfl, rfl⟩

/-- In `main`'s flow the output's chunked-ness always matches the
`page_chunks` flag handed to `save_markdown`, so the save step never
fails. -/
theorem save_to_markdown_ok (doc : List String) (sel : List Int) (pc : Bool) :
    ∃ eff, save_markdown (to_markdown doc sel pc) pc = Except.ok eff := by
  cases pc <;> exact ⟨_, rfl⟩

/-- C7 amended: `main` exits 0 on success and 1 on any extraction error,
printing `An error occurred: <message>` to standard output (Python's bare
`print`), never to standard error. -/
theorem claim_C7_amended (load : Except String (List String))
    (pages : Option (List Int)) (pc : Bool) (i o : String) :
    (mainRun load pages pc i o).stderrMsgs = [] ∧
    ((∃ e, parseFlow load pages pc = Except.error e ∧
        (mainRun load pages pc i o).exitCode = 1 ∧
        (mainRun load pages pc i o).stdoutMsgs
          = ["An error occurred: " ++ errMessage e]) ∨
     (∃ md eff, parseFlow load pages pc = Except.ok md ∧
        save_markdown md pc = Except.ok eff ∧
        (mainRun load pages pc i o).exitCode = 0 ∧
        (mainRun load pages pc i o).written = some eff)) := by
  rcases hp : parseFlow load pages pc with e | md
  · exact ⟨by simp [mainRun, hp], Or.inl ⟨e, rfl, by simp [mainRun, hp], by simp [mainRun, hp]⟩⟩
  · have hmd : ∃ eff, save_markdown md pc = Except.ok eff := by
      rcases load with m | doc
      · simp [parseFlow] at hp
      · simp only [parseFlow, parse_pdf_to_markdown] at hp
        rcases hs : selectPages pages doc.length with e' | sel
        · rw [hs] at hp; cases hp
        · rw [hs] at hp
          cases hp
          exact save_to_markdown_ok doc sel pc
    rcases hmd with ⟨eff, heff⟩
    exact ⟨by simp [mainRun, hp, heff], Or.inr ⟨md, eff, rfl, heff,
      by simp [mainRun, hp, heff], by simp [mainRun, hp, heff]⟩⟩

end PdfParser

namespace PdfParser

/-- C8: for every filter of valid page indices, the extracted texts are
exactly the requested pages' texts (nothing from unrequested pages); and
on the spec's 2-page scenario, unchunked extraction yields both marker
strings while `pages=[1]` yields only the second. -/
theorem claim_C8 (doc : List String) (ps : List Int)
    (h : ∀ p ∈ ps, pageValid doc.length p = true) :
    ((∀ t ∈ extractedTexts doc ps, ∃ p, p ∈ ps ∧ doc.get? p.toNat = some t) ∧
     (∀ p ∈ ps, ∃ t, doc.get? p.toNat = some t ∧ t ∈ extractedTexts doc ps)) ∧
    (parse_pdf_to_markdown
        ["First page: Hello World!", "Second page: Goodbye World!"] none false
      = Except.ok (MdOutput.str (String.join
          ["First page: Hello World!", "Second page: Goodbye World!"])) ∧
     parse_pdf_to_markdown
        ["First page: Hello World!", "Second page: Goodbye World!"]
        (some [1]) false
      = Except.ok (MdOutput.str (String.join ["Second page: Goodbye World!"]))) := by
  refine ⟨⟨?_, ?_⟩, ?_, ?_⟩
  · intro t ht
    rcases List.mem_filterMap.mp ht with ⟨p, hp, hfp⟩
    exact ⟨p, hp, hfp⟩
  · intro p hp
    have hv := h p hp
    rw [pageValid_iff] at hv
    have hlt : p.toNat < doc.length := by omega
    have hg : doc.get? p.toNat = some (doc.get ⟨p.toNat, hlt⟩) :=
      List.get?_eq_get hlt
    exact ⟨_, hg, List.mem_filterMap.mpr ⟨p, hp, hg⟩⟩
  · rfl
  · rfl

theorem claim_C8_witness :
    ((∀ t ∈ extractedTexts ["pg0", "pg1"] [1],
        ∃ p, p ∈ ([1] : List Int) ∧ (["pg0", "pg1"] : List String).get? p.toNat = some t) ∧
     (∀ p ∈ ([1] : List Int), ∃ t,
        (["pg0", "pg1"] : List String).get? p.toNat = some t ∧
        t ∈ extractedTexts ["pg0", "pg1"] [1])) ∧
    (parse_pdf_to_markdown
        ["First page: Hello World!", "Second page: Goodbye World!"] none false
      = Except.ok (MdOutput.str (String.join
          ["First page: Hello World!", "Second page: Goodbye World!"])) ∧
     parse_pdf_to_markdown
        ["First page: Hello World!", "Second page: Goodbye World!"]
        (some [1]) false
      = Except.ok (MdOutput.str (String.join ["Second page: Goodbye World!"]))) :=
  claim_C8 ["pg0", "pg1"] [1] (by decide)

end PdfParser
